import Mathlib

/-!
Verification of the crossterm event-multiplexer (`src/event/read.rs`) and the
unix cursor-position query protocol (`src/cursor/sys/unix.rs`).

The Rust code is shallowly embedded: the `InternalEventReader` state becomes an
explicit record, the platform event source becomes a trace of responses, and the
wall-clock `PollTimeout` becomes an oracle of `elapsed()` observations paired
with each source response.
-/

set_option autoImplicit false

namespace Crossterm

/-- Modelled from the spec: the event taxonomy is out of scope ("an opaque,
cloneable, comparable tagged value"); two resize-style variants are enough to
distinguish concrete events in theorems. -/
inductive Event where
  | Resize (w h : Nat)
  deriving DecidableEq

/-- Modelled from the spec: the `InternalEvent` type (its defining module is not
part of the provided sources) with the two variants exercised by
`src/event/read.rs` and `src/cursor/sys/unix.rs`: an ordinary event and a
cursor-position reply. -/
inductive InternalEvent where
  | event (e : Event)
  | cursorPosition (x y : Nat)
  deriving DecidableEq

/-- A `Filter` (trait with `eval(&self, event) -> bool`) is a Boolean predicate
on internal events. -/
def Filter : Type := InternalEvent → Bool

/-- Modelled from the spec: the filter used by the cursor-position protocol,
"a filter that matches only cursor-reply events". -/
def CursorPositionFilter : InternalEvent → Bool
  | .cursorPosition _ _ => true
  | _ => false

/-- The two error kinds distinguished by `InternalEventReader::poll`:
`io::ErrorKind::Interrupted` and everything else. -/
inductive ErrorKind where
  | interrupted
  | other
  deriving DecidableEq

/-- One response of `EventSource::try_read`: `Ok(None)` (source timeout),
`Ok(Some(event))`, or `Err(e)` with the given kind. -/
inductive SourceResult where
  | ok : Option InternalEvent → SourceResult
  | err : ErrorKind → SourceResult
  deriving DecidableEq

/-- The mutable state of `InternalEventReader`: the `events` queue
(`VecDeque<InternalEvent>`), the persistent `skipped_events` buffer
(`Vec<InternalEvent>`), and whether `source` is `Some` (`hasSource`). -/
structure ReaderState where
  events : List InternalEvent
  skipped : List InternalEvent
  hasSource : Bool
  deriving DecidableEq

/-- Result of a `poll` call: `Ok(b)` or `Err(kind)`. -/
inductive PollResult where
  | ok : Bool → PollResult
  | err : ErrorKind → PollResult
  deriving DecidableEq

/-- The `while let Some(event) = self.events.pop_front()` loop of
`InternalEventReader::try_read`, with the local `skipped_events` accumulator.
On a match the loop breaks; the final queue is the unpopped remainder extended
(at the back) with the skipped events, mirroring
`self.events.extend(skipped_events)`. -/
def tryReadLoop (f : InternalEvent → Bool) :
    List InternalEvent → List InternalEvent →
    Option InternalEvent × List InternalEvent
  | [], skipped => (none, skipped)
  | e :: rest, skipped =>
    if f e then (some e, rest ++ skipped)
    else tryReadLoop f rest (skipped ++ [e])

/-- `InternalEventReader::try_read`: scan the queue front-to-back, return the
first event accepted by the filter, re-append the skipped prefix to the back of
the queue. Returns the result and the new queue. (`try_read` never touches
`self.skipped_events`, so only the queue is threaded through.) -/
def tryRead (f : InternalEvent → Bool) (events : List InternalEvent) :
    Option InternalEvent × List InternalEvent :=
  tryReadLoop f events []

/-- The `loop` of `InternalEventReader::poll`. The source is embedded as the
trace of its successive `try_read` responses; each response is paired with the
value `poll_timeout.elapsed()` returns right after it is processed (modelled
from the spec, section 4.1: the Bounded-Deadline Timer is wall-clock state not
expressible in a pure embedding). Returns `none` when the trace is exhausted
with the loop still running, otherwise the result, the updated reader state and
the unconsumed remainder of the trace. -/
def pollLoop (f : InternalEvent → Bool) :
    List (SourceResult × Bool) → ReaderState →
    Option (PollResult × ReaderState × List (SourceResult × Bool))
  | [], _ => none
  | (resp, elapsed) :: rest, s =>
    match resp with
    | .err .interrupted => some (.ok false, s, rest)
    | .err .other => some (.err .other, s, rest)
    | .ok (some e) =>
      if f e then
        some (.ok true, ⟨e :: (s.events ++ s.skipped), [], s.hasSource⟩, rest)
      else
        if elapsed then
          some (.ok false, ⟨s.events ++ (s.skipped ++ [e]), [], s.hasSource⟩, rest)
        else
          pollLoop f rest ⟨s.events, s.skipped ++ [e], s.hasSource⟩
    | .ok none =>
      if elapsed then
        some (.ok false, ⟨s.events ++ s.skipped, [], s.hasSource⟩, rest)
      else
        pollLoop f rest s

/-- `InternalEventReader::poll`: first scan the existing queue by reference
(returning `Ok(true)` on any match, queue untouched); fail with an `Other`
error when no source is configured; otherwise enter the source loop. -/
def poll (f : InternalEvent → Bool) (trace : List (SourceResult × Bool))
    (s : ReaderState) :
    Option (PollResult × ReaderState × List (SourceResult × Bool)) :=
  if s.events.any f then some (.ok true, s, trace)
  else if s.hasSource then pollLoop f trace s
  else some (.err .other, s, trace)

/-- The `loop` of `poll` specialised to `timeout = None`, as called by
`InternalEventReader::read`: `PollTimeout::new(None).elapsed()` is always
`false` (modelled from the spec, sections 4.1 and 5: "no timeout" means "wait
forever"), so no elapsed oracle is needed. -/
def pollNoneLoop (f : InternalEvent → Bool) :
    List SourceResult → ReaderState →
    Option (PollResult × ReaderState × List SourceResult)
  | [], _ => none
  | resp :: rest, s =>
    match resp with
    | .err .interrupted => some (.ok false, s, rest)
    | .err .other => some (.err .other, s, rest)
    | .ok (some e) =>
      if f e then
        some (.ok true, ⟨e :: (s.events ++ s.skipped), [], s.hasSource⟩, rest)
      else pollNoneLoop f rest ⟨s.events, s.skipped ++ [e], s.hasSource⟩
    | .ok none => pollNoneLoop f rest s

/-- `InternalEventReader::poll` with `timeout = None` (queue scan, source
check, then the unbounded loop). -/
def pollNone (f : InternalEvent → Bool) (trace : List SourceResult)
    (s : ReaderState) :
    Option (PollResult × ReaderState × List SourceResult) :=
  if s.events.any f then some (.ok true, s, trace)
  else if s.hasSource then pollNoneLoop f trace s
  else some (.err .other, s, trace)

/-- Result of `InternalEventReader::read`: `Ok(event)` or `Err(kind)`. -/
inductive ReadResult where
  | event : InternalEvent → ReadResult
  | ioError : ErrorKind → ReadResult
  deriving DecidableEq

/-- `InternalEventReader::read`: loop { if try_read yields an event return it;
otherwise `self.poll(None, filter)?` and retry }. The loop is given fuel;
`none` means the call has not returned within the given fuel and source trace
(the real call would still be blocked/looping). -/
def read (f : InternalEvent → Bool) :
    Nat → List SourceResult → ReaderState →
    Option (ReadResult × ReaderState × List SourceResult)
  | 0, _, _ => none
  | fuel + 1, trace, s =>
    match tryRead f s.events with
    | (some e, q) => some (.event e, ⟨q, s.skipped, s.hasSource⟩, trace)
    | (none, q) =>
      match pollNone f trace ⟨q, s.skipped, s.hasSource⟩ with
      | none => none
      | some (.err k, s1, rest) => some (.ioError k, s1, rest)
      | some (.ok _, s1, rest) => read f fuel rest s1

/-- Number of events actually retrieved from the source in a trace fragment:
the `Ok(Some(_))` responses. -/
def countRetrieved : List (SourceResult × Bool) → Nat
  | [] => 0
  | (SourceResult.ok (some _), _) :: rest => countRetrieved rest + 1
  | _ :: rest => countRetrieved rest

/-! Cursor-position query protocol, `src/cursor/sys/unix.rs`. The calls
`internal::poll(Some(2000ms), &CursorPositionFilter)` and
`internal::read(&CursorPositionFilter)` act on the process-global reader, so
each loop iteration is embedded by the pair of outcomes those two calls
produce. -/

/-- Outcome of one `internal::poll` call in the cursor-query loop. -/
inductive PollOutcome where
  | ok : Bool → PollOutcome
  | err : PollOutcome
  deriving DecidableEq

/-- Outcome of one `internal::read` call in the cursor-query loop. -/
inductive ReadOutcome where
  | ok : InternalEvent → ReadOutcome
  | err : ReadOutcome
  deriving DecidableEq

/-- One iteration worth of oracle outcomes for the cursor-query loop
(`readRes` is only consulted when `pollRes` is `Ok(true)`). -/
structure LoopStep where
  pollRes : PollOutcome
  readRes : ReadOutcome
  deriving DecidableEq

/-- The fixed per-attempt window `Duration::from_millis(2000)` passed to
`internal::poll` on every iteration of the cursor-query loop. -/
def cursorPollTimeoutMs : Nat := 2000

/-- Result of the cursor-query wait loop: coordinates, or the distinct
"could not be read within a normal duration" timeout error. -/
inductive PosResult where
  | pos : Nat → Nat → PosResult
  | timeoutErr
  deriving DecidableEq

/-- Decodes a loop read outcome: `some (x, y)` exactly when it is
`Ok(InternalEvent::CursorPosition(x, y))`. -/
def isCursorReply : ReadOutcome → Option (Nat × Nat)
  | .ok (.cursorPosition x y) => some (x, y)
  | _ => none

/-- The `loop` of `read_position_raw`: on `Ok(true)` try to read a
cursor-position reply (returning it, else falling through to the next
iteration); on `Ok(false)` fail with the timeout error; on `Err(_)` ignore and
retry. Also records, per `poll` call actually made, the timeout passed to it
(always the fixed 2000 ms constant). `none` in the first component means the
trace ended with the loop still running. -/
def read_position_raw_loop : List LoopStep → Option PosResult × List Nat
  | [] => (none, [])
  | step :: rest =>
    match step.pollRes with
    | .ok true =>
      match isCursorReply step.readRes with
      | some (x, y) => (some (.pos x y), [cursorPollTimeoutMs])
      | none =>
        ((read_position_raw_loop rest).1,
          cursorPollTimeoutMs :: (read_position_raw_loop rest).2)
    | .ok false => (some .timeoutErr, [cursorPollTimeoutMs])
    | .err =>
      ((read_position_raw_loop rest).1,
        cursorPollTimeoutMs :: (read_position_raw_loop rest).2)

/-- Errors distinguishable at the `position()` boundary. -/
inductive CtError where
  | writeFail
  | enableFail
  | disableFail
  | cursorTimeout
  deriving DecidableEq

/-- Result of `position()` / `read_position` / `read_position_raw`. -/
inductive PosOutcome where
  | ok : Nat → Nat → PosOutcome
  | error : CtError → PosOutcome
  deriving DecidableEq

/-- Raw-mode operations performed, in order (`enable_raw_mode`,
`disable_raw_mode`). -/
inductive ModeAction where
  | enable
  | disable
  deriving DecidableEq

/-- `read_position_raw`: write `ESC [ 6 n` to stdout, flush (each can fail),
then run the wait loop. `writeOk`/`flushOk` are the outcomes of the two stdout
operations; `none` means the loop never returned within the oracle trace. -/
def read_position_raw (writeOk flushOk : Bool) (steps : List LoopStep) :
    Option PosOutcome :=
  if writeOk then
    if flushOk then
      match (read_position_raw_loop steps).1 with
      | none => none
      | some (.pos x y) => some (.ok x y)
      | some .timeoutErr => some (.error .cursorTimeout)
    else some (.error .writeFail)
  else some (.error .writeFail)

/-- `read_position`: `enable_raw_mode()?`, capture `read_position_raw()`'s
result, `disable_raw_mode()?`, then return the captured result. Also returns
the raw-mode actions performed. -/
def read_position (enableOk disableOk writeOk flushOk : Bool)
    (steps : List LoopStep) : Option PosOutcome × List ModeAction :=
  if enableOk then
    match read_position_raw writeOk flushOk steps with
    | none => (none, [.enable])
    | some pos =>
      if disableOk then (some pos, [.enable, .disable])
      else (some (.error .disableFail), [.enable, .disable])
  else (some (.error .enableFail), [.enable])

/-- `position()`: dispatch on `is_raw_mode_enabled()`. -/
def position (rawModeEnabled enableOk disableOk writeOk flushOk : Bool)
    (steps : List LoopStep) : Option PosOutcome × List ModeAction :=
  if rawModeEnabled then (read_position_raw writeOk flushOk steps, [])
  else read_position enableOk disableOk writeOk flushOk steps

/-! Helper lemmas. -/

/-- The head of `dropWhile p` falsifies `p`. -/
theorem dropWhile_head_false {α : Type} (p : α → Bool) (q : List α) (m : α)
    (after : List α) (h : q.dropWhile p = m :: after) : p m = false := by
  induction q with
  | nil => simp at h
  | cons e rest ih =>
    rw [List.dropWhile_cons] at h
    by_cases hp : p e
    · exact ih (by simpa [hp] using h)
    · obtain ⟨he, -⟩ := List.cons.inj (by simpa [hp] using h)
      simpa [← he] using hp

/-- Closed form of the `try_read` pop loop: the first filter-accepted event is
returned and the final queue is the unscanned suffix followed by the skipped
events. -/
theorem tryReadLoop_eq (f : InternalEvent → Bool) (q skipped : List InternalEvent) :
    tryReadLoop f q skipped =
      match q.dropWhile (fun e => !(f e)) with
      | [] => (none, skipped ++ q)
      | m :: after => (some m, after ++ (skipped ++ q.takeWhile (fun e => !(f e)))) := by
  induction q generalizing skipped with
  | nil => simp [tryReadLoop]
  | cons e rest ih =>
    by_cases hf : f e
    · simp [tryReadLoop, hf, List.dropWhile_cons, List.takeWhile_cons]
    · rw [tryReadLoop, if_neg (by simp [hf]), ih, List.dropWhile_cons,
        List.takeWhile_cons]
      cases hd : rest.dropWhile (fun e => !(f e)) <;> simp [hf, hd]

/-- Closed form of `InternalEventReader::try_read`. -/
theorem tryRead_eq (f : InternalEvent → Bool) (q : List InternalEvent) :
    tryRead f q =
      match q.dropWhile (fun e => !(f e)) with
      | [] => (none, q)
      | m :: after => (some m, after ++ q.takeWhile (fun e => !(f e))) := by
  rw [tryRead, tryReadLoop_eq]
  cases hd : q.dropWhile (fun e => !(f e)) with
  | nil =>
    have := List.takeWhile_append_dropWhile (fun e => !(f e)) q
    rw [hd, List.append_nil] at this
    simp [List.nil_append]
  | cons m after => simp

/-- Shape of every return of the `poll` source loop: a match pushed to the
front with the skip buffer drained, an elapsed-deadline return with the skip
buffer drained, or an early (interrupted / error) return that leaves the
accumulated skip buffer in place. -/
theorem pollLoop_shape (f : InternalEvent → Bool) :
    ∀ (trace : List (SourceResult × Bool)) (s : ReaderState) (r : PollResult)
      (s' : ReaderState) (rest : List (SourceResult × Bool)),
      pollLoop f trace s = some (r, s', rest) →
      ∃ extra : List InternalEvent,
        (∃ e, r = .ok true ∧ f e = true ∧
            s' = ⟨e :: (s.events ++ (s.skipped ++ extra)), [], s.hasSource⟩) ∨
        (r = .ok false ∧
            s' = ⟨s.events ++ (s.skipped ++ extra), [], s.hasSource⟩) ∨
        ((r = .ok false ∨ r = .err .other) ∧
            s' = ⟨s.events, s.skipped ++ extra, s.hasSource⟩ ∧
            ∃ k b, (SourceResult.err k, b) ∈ trace) := by
  intro trace
  induction trace with
  | nil => intro s r s' rest h; simp [pollLoop] at h
  | cons p rest2 ih =>
    intro s r s' rest h
    obtain ⟨resp, elapsed⟩ := p
    cases resp with
    | err k =>
      cases k with
      | interrupted =>
        simp only [pollLoop, Option.some.injEq, Prod.mk.injEq] at h
        obtain ⟨hr, hs, -⟩ := h
        refine ⟨[], Or.inr (Or.inr ⟨Or.inl hr.symm, ?_, .interrupted, elapsed, by simp⟩)⟩
        rw [← hs]; simp
      | other =>
        simp only [pollLoop, Option.some.injEq, Prod.mk.injEq] at h
        obtain ⟨hr, hs, -⟩ := h
        refine ⟨[], Or.inr (Or.inr ⟨Or.inr hr.symm, ?_, .other, elapsed, by simp⟩)⟩
        rw [← hs]; simp
    | ok o =>
      cases o with
      | none =>
        simp only [pollLoop] at h
        by_cases hel : elapsed = true
        · rw [if_pos hel, Option.some.injEq, Prod.mk.injEq, Prod.mk.injEq] at h
          obtain ⟨hr, hs, -⟩ := h
          refine ⟨[], Or.inr (Or.inl ⟨hr.symm, ?_⟩)⟩
          rw [← hs]; simp
        · rw [if_neg hel] at h
          obtain ⟨extra, hcase⟩ := ih s r s' rest h
          refine ⟨extra, ?_⟩
          rcases hcase with h1 | h2 | ⟨h3a, h3b, k, b, hmem⟩
          · exact Or.inl h1
          · exact Or.inr (Or.inl h2)
          · exact Or.inr (Or.inr ⟨h3a, h3b, k, b, List.mem_cons_of_mem _ hmem⟩)
      | some e =>
        simp only [pollLoop] at h
        by_cases hfe : f e = true
        · rw [if_pos hfe, Option.some.injEq, Prod.mk.injEq, Prod.mk.injEq] at h
          obtain ⟨hr, hs, -⟩ := h
          refine ⟨[], Or.inl ⟨e, hr.symm, hfe, ?_⟩⟩
          rw [← hs]; simp
        · rw [if_neg hfe] at h
          by_cases hel : elapsed = true
          · rw [if_pos hel, Option.some.injEq, Prod.mk.injEq, Prod.mk.injEq] at h
            obtain ⟨hr, hs, -⟩ := h
            exact ⟨[e], Or.inr (Or.inl ⟨hr.symm, hs.symm⟩)⟩
          · rw [if_neg hel] at h
            obtain ⟨extra, hcase⟩ :=
              ih ⟨s.events, s.skipped ++ [e], s.hasSource⟩ r s' rest h
            refine ⟨e :: extra, ?_⟩
            rcases hcase with ⟨e2, hr, hfe2, hs⟩ | ⟨hr, hs⟩ | ⟨h3a, h3b, k, b, hmem⟩
            · refine Or.inl ⟨e2, hr, hfe2, ?_⟩
              rw [hs]; simp
            · refine Or.inr (Or.inl ⟨hr, ?_⟩)
              rw [hs]; simp
            · refine Or.inr (Or.inr ⟨h3a, ?_, k, b, List.mem_cons_of_mem _ hmem⟩)
              rw [h3b]; simp


/-- Event conservation for the `poll` source loop: the total number of buffered
events (queue plus skip buffer) grows by exactly the number of events actually
retrieved from the source in the consumed trace prefix. -/
theorem pollLoop_conservation (f : InternalEvent → Bool) :
    ∀ (trace : List (SourceResult × Bool)) (s : ReaderState) (r : PollResult)
      (s' : ReaderState) (rest : List (SourceResult × Bool)),
      pollLoop f trace s = some (r, s', rest) →
      ∃ consumed, trace = consumed ++ rest ∧
        s'.events.length + s'.skipped.length
          = s.events.length + s.skipped.length + countRetrieved consumed := by
  intro trace
  induction trace with
  | nil => intro s r s' rest h; simp [pollLoop] at h
  | cons p rest2 ih =>
    intro s r s' rest h
    obtain ⟨resp, elapsed⟩ := p
    cases resp with
    | err k =>
      cases k with
      | interrupted =>
        simp only [pollLoop, Option.some.injEq, Prod.mk.injEq] at h
        obtain ⟨-, hs, hrest⟩ := h
        refine ⟨[(.err .interrupted, elapsed)], by simp [hrest], ?_⟩
        rw [← hs]; simp [countRetrieved]
      | other =>
        simp only [pollLoop, Option.some.injEq, Prod.mk.injEq] at h
        obtain ⟨-, hs, hrest⟩ := h
        refine ⟨[(.err .other, elapsed)], by simp [hrest], ?_⟩
        rw [← hs]; simp [countRetrieved]
    | ok o =>
      cases o with
      | none =>
        simp only [pollLoop] at h
        by_cases hel : elapsed = true
        · rw [if_pos hel, Option.some.injEq, Prod.mk.injEq, Prod.mk.injEq] at h
          obtain ⟨-, hs, hrest⟩ := h
          refine ⟨[(.ok none, elapsed)], by simp [hrest], ?_⟩
          rw [← hs]; simp [countRetrieved]
        · rw [if_neg hel] at h
          obtain ⟨consumed, hsplit, hlen⟩ := ih s r s' rest h
          exact ⟨(.ok none, elapsed) :: consumed, by simp [hsplit],
            by simpa [countRetrieved] using hlen⟩
      | some e =>
        simp only [pollLoop] at h
        by_cases hfe : f e = true
        · rw [if_pos hfe, Option.some.injEq, Prod.mk.injEq, Prod.mk.injEq] at h
          obtain ⟨-, hs, hrest⟩ := h
          refine ⟨[(.ok (some e), elapsed)], by simp [hrest], ?_⟩
          rw [← hs]; simp [countRetrieved]
        · rw [if_neg hfe] at h
          by_cases hel : elapsed = true
          · rw [if_pos hel, Option.some.injEq, Prod.mk.injEq, Prod.mk.injEq] at h
            obtain ⟨-, hs, hrest⟩ := h
            refine ⟨[(.ok (some e), elapsed)], by simp [hrest], ?_⟩
            rw [← hs]; simp [countRetrieved]; omega
          · rw [if_neg hel] at h
            obtain ⟨consumed, hsplit, hlen⟩ :=
              ih ⟨s.events, s.skipped ++ [e], s.hasSource⟩ r s' rest h
            refine ⟨(.ok (some e), elapsed) :: consumed, by simp [hsplit], ?_⟩
            simp only [countRetrieved]
            simp at hlen
            omega

/-- Claim C1 (counterexample): with queue `[Resize 1 1, CursorPosition 1 2,
Resize 3 3]` and the cursor filter, `try_read` returns the cursor event but
leaves the queue as `[Resize 3 3, Resize 1 1]`, whereas the originally-present
non-matching events in their original relative order are
`[Resize 1 1, Resize 3 3]`: the skipped prefix is re-appended *behind* the
unscanned suffix, so the original relative order is not preserved. -/
theorem C1_counterexample :
    tryRead CursorPositionFilter
        [.event (.Resize 1 1), .cursorPosition 1 2, .event (.Resize 3 3)]
      = (some (.cursorPosition 1 2),
         [.event (.Resize 3 3), .event (.Resize 1 1)]) ∧
    ([InternalEvent.event (.Resize 1 1), .cursorPosition 1 2,
        .event (.Resize 3 3)].filter (fun e => !(CursorPositionFilter e)))
      = [.event (.Resize 1 1), .event (.Resize 3 3)] ∧
    ([InternalEvent.event (.Resize 3 3), .event (.Resize 1 1)]
      ≠ [InternalEvent.event (.Resize 1 1), .event (.Resize 3 3)]) := by
  decide

/-- Claim C1 (amended): `try_read` removes and returns the first (front-most)
matching event; the resulting queue is the unscanned suffix (the events after
the match) followed by the skipped prefix (the non-matching events before the
match, in their original order) — so all non-matching events are retained, but
the skipped prefix ends up behind the unscanned suffix rather than in the
original relative order. If no event matches, `try_read` returns `None` and
the queue is unchanged in contents and order. -/
theorem C1_amended (f : InternalEvent → Bool) (q : List InternalEvent) :
    (q.dropWhile (fun e => !(f e)) = [] → tryRead f q = (none, q)) ∧
    (∀ m after, q.dropWhile (fun e => !(f e)) = m :: after →
      f m = true ∧
      tryRead f q = (some m, after ++ q.takeWhile (fun e => !(f e)))) := by
  constructor
  · intro h
    rw [tryRead_eq, h]
  · intro m after h
    refine ⟨?_, by rw [tryRead_eq, h]⟩
    have := dropWhile_head_false (fun e => !(f e)) q m after h
    simpa using this

/-- Claim C1 (amended, witness): concrete instance of the amended theorem at
the counterexample queue. -/
theorem C1_amended_witness :
    CursorPositionFilter (.cursorPosition 1 2) = true ∧
    tryRead CursorPositionFilter
        [.event (.Resize 1 1), .cursorPosition 1 2, .event (.Resize 3 3)]
      = (some (.cursorPosition 1 2),
         [InternalEvent.event (.Resize 3 3)] ++
           ([InternalEvent.event (.Resize 1 1), .cursorPosition 1 2,
              .event (.Resize 3 3)].takeWhile
             (fun e => !(CursorPositionFilter e)))) :=
  (C1_amended CursorPositionFilter
      [.event (.Resize 1 1), .cursorPosition 1 2, .event (.Resize 3 3)]).2
    (.cursorPosition 1 2) [.event (.Resize 3 3)] (by decide)

/-- Claim C2 (counterexample): events `a = Resize 1 1`, `b = CursorPosition 1 2`,
`c = Resize 3 3` arrive from the source in this order; a `poll` with a
never-matching filter and a deadline that elapses on the third response buffers
them in arrival order `[a, b, c]` (a reachable multiplexer state). The first
consuming call, with filter `f` accepting only `b` (the cursor filter), returns
`b` and leaves the queue `[c, a]`; the second consuming call, with filter `g`
accepting `a` and `c` (the non-cursor filter), returns `c` — a later-arrived
event — ahead of the earlier-arrived, not-yet-consumed event `a`, which `g`
also accepts. -/
theorem C2_counterexample :
    poll (fun _ => false)
        [(.ok (some (.event (.Resize 1 1))), false),
         (.ok (some (.cursorPosition 1 2)), false),
         (.ok (some (.event (.Resize 3 3))), true)]
        ⟨[], [], true⟩
      = some (.ok false,
          ⟨[.event (.Resize 1 1), .cursorPosition 1 2, .event (.Resize 3 3)],
            [], true⟩, []) ∧
    tryRead CursorPositionFilter
        [.event (.Resize 1 1), .cursorPosition 1 2, .event (.Resize 3 3)]
      = (some (.cursorPosition 1 2),
         [.event (.Resize 3 3), .event (.Resize 1 1)]) ∧
    tryRead (fun e => !(CursorPositionFilter e))
        [.event (.Resize 3 3), .event (.Resize 1 1)]
      = (some (.event (.Resize 3 3)), [.event (.Resize 1 1)]) ∧
    (fun e => !(CursorPositionFilter e)) (InternalEvent.event (.Resize 1 1))
      = true := by
  decide

/-- Claim C2 (amended): within a single consuming `try_read` call the served
event is the first (earliest-queued) event the filter accepts, and across two
sequential consuming calls (`try_read` with `f`, then `try_read` with `g`) the
two calls never reorder events that both filters would have accepted: if the
first call serves `e₁` and the second serves `e₂` with `f` also accepting `e₂`,
then `e₁` was queued strictly before `e₂`. (The unrestricted claim — that the
serving filter never serves a later-queued event ahead of an earlier-queued
not-yet-consumed event it accepts — fails, because the first call re-appends
its skipped prefix behind the unscanned suffix.) -/
theorem C2_amended (f g : InternalEvent → Bool) (q q₁ q₂ : List InternalEvent)
    (e₁ e₂ : InternalEvent)
    (h₁ : tryRead f q = (some e₁, q₁))
    (h₂ : tryRead g q₁ = (some e₂, q₂))
    (hf : f e₂ = true) :
    ∃ pre mid post, q = pre ++ e₁ :: (mid ++ e₂ :: post) := by
  rw [tryRead_eq] at h₁
  cases hd : q.dropWhile (fun e => !(f e)) with
  | nil => rw [hd] at h₁; simp at h₁
  | cons m after =>
    rw [hd] at h₁
    obtain ⟨hm, hq₁⟩ : m = e₁ ∧ after ++ q.takeWhile (fun e => !(f e)) = q₁ := by
      constructor
      · exact Option.some.inj (congrArg Prod.fst h₁)
      · exact congrArg Prod.snd h₁
    have hq : q.takeWhile (fun e => !(f e)) ++ (m :: after) = q := by
      rw [← hd]; exact List.takeWhile_append_dropWhile (fun e => !(f e)) q
    -- e₂ is a member of q₁ (it is the head of the dropWhile decomposition of q₁)
    have he₂ : e₂ ∈ q₁ := by
      rw [tryRead_eq] at h₂
      cases hd₂ : q₁.dropWhile (fun e => !(g e)) with
      | nil => rw [hd₂] at h₂; simp at h₂
      | cons m₂ after₂ =>
        rw [hd₂] at h₂
        have hm₂ : m₂ = e₂ := Option.some.inj (congrArg Prod.fst h₂)
        have : q₁.takeWhile (fun e => !(g e)) ++ (m₂ :: after₂) = q₁ := by
          rw [← hd₂]; exact List.takeWhile_append_dropWhile (fun e => !(g e)) q₁
        rw [← this, hm₂]
        exact List.mem_append_right _ (List.mem_cons_self _ _)
    -- e₂ cannot be in the skipped prefix, because that prefix falsifies f
    have hnot : e₂ ∉ q.takeWhile (fun e => !(f e)) := by
      intro hmem
      have := List.mem_takeWhile_imp hmem
      simp [hf] at this
    have hafter : e₂ ∈ after := by
      rw [← hq₁] at he₂
      rcases List.mem_append.mp he₂ with h | h
      · exact h
      · exact absurd h hnot
    obtain ⟨mid, post, hsplit⟩ := List.append_of_mem hafter
    subst hm hsplit
    exact ⟨q.takeWhile (fun e => !(f e)), mid, post, hq.symm⟩

/-- Claim C2 (amended, witness): two cursor events consumed by two sequential
cursor-filter calls are served in queue order. -/
theorem C2_amended_witness :
    ∃ pre mid post,
      [InternalEvent.cursorPosition 1 2, InternalEvent.cursorPosition 3 4]
        = pre ++ InternalEvent.cursorPosition 1 2 ::
            (mid ++ InternalEvent.cursorPosition 3 4 :: post) :=
  C2_amended CursorPositionFilter CursorPositionFilter
    [.cursorPosition 1 2, .cursorPosition 3 4]
    [.cursorPosition 3 4] [] (.cursorPosition 1 2) (.cursorPosition 3 4)
    (by decide) (by decide) (by decide)

/-- Claim C3 (counterexample): with queue `[Resize 1 1, CursorPosition 1 2]`
and the cursor filter, `poll` returns `Ok(true)` from its initial queue scan
(the repository's own test `test_poll_returns_true_for_matching_event_in_queue_at_back`
exercises exactly this), yet the event at the front of the queue does not match
the filter: the scan neither moves the match to the front nor guarantees a
match is there. -/
theorem C3_counterexample :
    poll CursorPositionFilter []
        ⟨[.event (.Resize 1 1), .cursorPosition 1 2], [], true⟩
      = some (.ok true,
          ⟨[.event (.Resize 1 1), .cursorPosition 1 2], [], true⟩, []) ∧
    CursorPositionFilter (.event (.Resize 1 1)) = false := by
  decide

/-- Claim C3 (amended): whenever `poll` returns `Ok(true)` the queue contains
an event matching the supplied filter (when the match was pulled from the
source during this call it is pushed to the front of the queue; when the
initial scan found a match already in the queue, the match may sit anywhere);
and when `poll` finds no match while scanning the existing queue, that scan
leaves the queue unmodified — `poll` proceeds on the unchanged state. -/
theorem C3_amended (f : InternalEvent → Bool)
    (trace : List (SourceResult × Bool)) (s : ReaderState) :
    (∀ s' rest, poll f trace s = some (.ok true, s', rest) →
      s'.events.any f = true) ∧
    (∀ s' rest, pollLoop f trace s = some (.ok true, s', rest) →
      ∃ e tl, s'.events = e :: tl ∧ f e = true) ∧
    (s.events.any f = false → s.hasSource = true →
      poll f trace s = pollLoop f trace s) := by
  have hloop : ∀ s' rest, pollLoop f trace s = some (.ok true, s', rest) →
      ∃ e tl, s'.events = e :: tl ∧ f e = true := by
    intro s' rest h
    obtain ⟨extra, hcase⟩ := pollLoop_shape f trace s (.ok true) s' rest h
    rcases hcase with ⟨e, -, hfe, hs⟩ | ⟨hr, -⟩ | ⟨hr, -⟩
    · exact ⟨e, s.events ++ (s.skipped ++ extra), by rw [hs], hfe⟩
    · exact absurd hr.symm (by simp)
    · rcases hr with hr | hr <;> exact absurd hr.symm (by simp)
  refine ⟨?_, hloop, ?_⟩
  · intro s' rest h
    rw [poll] at h
    by_cases hany : s.events.any f = true
    · rw [if_pos hany, Option.some.injEq, Prod.mk.injEq, Prod.mk.injEq] at h
      obtain ⟨-, hs', -⟩ := h
      rw [← hs']; exact hany
    · rw [if_neg hany] at h
      by_cases hsrc : s.hasSource = true
      · rw [if_pos hsrc] at h
        obtain ⟨e, tl, hs, hfe⟩ := hloop s' rest h
        simp [hs, List.any_cons, hfe]
      · rw [if_neg hsrc, Option.some.injEq, Prod.mk.injEq] at h
        obtain ⟨hr, -⟩ := h
        exact absurd hr (by simp)
  · intro hany hsrc
    rw [poll, if_neg (by simp [hany]), if_pos hsrc]

/-- Claim C3 (amended, witness): a match pulled from the source is pushed to
the front, and a prior no-match scan leaves the state unchanged. -/
theorem C3_amended_witness :
    (∃ e tl,
      (⟨[InternalEvent.cursorPosition 1 2], [], true⟩ : ReaderState).events
        = e :: tl ∧ CursorPositionFilter e = true) ∧
    poll CursorPositionFilter [(.ok (some (.cursorPosition 1 2)), false)]
        ⟨[.event (.Resize 1 1)], [], true⟩
      = pollLoop CursorPositionFilter [(.ok (some (.cursorPosition 1 2)), false)]
          ⟨[.event (.Resize 1 1)], [], true⟩ :=
  ⟨(C3_amended CursorPositionFilter [(.ok (some (.cursorPosition 1 2)), false)]
      ⟨[], [], true⟩).2.1 ⟨[.cursorPosition 1 2], [], true⟩ [] (by decide),
   (C3_amended CursorPositionFilter [(.ok (some (.cursorPosition 1 2)), false)]
      ⟨[.event (.Resize 1 1)], [], true⟩).2.2 (by decide) rfl⟩

/-- Claim C4 (counterexample): a `poll` call whose source yields a
non-matching event and then fails with a non-interrupted error returns `Err`
with the skipped event still in the (persistent) skip buffer: the skip buffer
is not emptied on the error return path and does hold an event across calls. -/
theorem C4_counterexample :
    poll (fun _ => false)
        [(.ok (some (.event (.Resize 1 1))), false), (.err .other, false)]
        ⟨[], [], true⟩
      = some (.err .other, ⟨[], [.event (.Resize 1 1)], true⟩, []) ∧
    ([InternalEvent.event (.Resize 1 1)] : List InternalEvent) ≠ [] := by
  decide

/-- Claim C4 (amended): `poll` drains the skip buffer into the event queue on
its normal loop-exit paths. Starting from an empty skip buffer, every
`Ok(true)` return leaves the skip buffer empty, and if the source never fails
(no `Err` response in the consumed trace) every return leaves the skip buffer
empty; but on a source-error or interrupted return the events skipped so far
remain in the skip buffer across the call (to be merged into the queue by a
later `poll`'s normal exit). -/
theorem C4_amended (f : InternalEvent → Bool)
    (trace : List (SourceResult × Bool)) (s : ReaderState) (r : PollResult)
    (s' : ReaderState) (rest : List (SourceResult × Bool))
    (hs : s.skipped = [])
    (h : poll f trace s = some (r, s', rest)) :
    (r = .ok true → s'.skipped = []) ∧
    ((∀ p ∈ trace, ∀ k, p.1 ≠ SourceResult.err k) → s'.skipped = []) := by
  rw [poll] at h
  by_cases hany : s.events.any f = true
  · rw [if_pos hany, Option.some.injEq, Prod.mk.injEq, Prod.mk.injEq] at h
    obtain ⟨-, hs', -⟩ := h
    rw [← hs']
    exact ⟨fun _ => hs, fun _ => hs⟩
  · rw [if_neg hany] at h
    by_cases hsrc : s.hasSource = true
    · rw [if_pos hsrc] at h
      obtain ⟨extra, hcase⟩ := pollLoop_shape f trace s r s' rest h
      rcases hcase with ⟨e, hr, -, hshape⟩ | ⟨hr, hshape⟩ | ⟨hr, hshape, k, b, hmem⟩
      · exact ⟨fun _ => by rw [hshape], fun _ => by rw [hshape]⟩
      · exact ⟨fun _ => by rw [hshape], fun _ => by rw [hshape]⟩
      · refine ⟨?_, ?_⟩
        · intro htrue
          rcases hr with hr | hr <;> simp [htrue] at hr
        · intro hnoerr
          exact absurd rfl (hnoerr (SourceResult.err k, b) hmem k)
    · rw [if_neg hsrc, Option.some.injEq, Prod.mk.injEq, Prod.mk.injEq] at h
      obtain ⟨-, hs', -⟩ := h
      rw [← hs']
      exact ⟨fun _ => hs, fun _ => hs⟩

/-- Claim C4 (amended, witness): an error-free `poll` call that skips an event
and then times out returns with an empty skip buffer. -/
theorem C4_amended_witness :
    (⟨[InternalEvent.event (.Resize 1 1)], [], true⟩ : ReaderState).skipped
      = [] :=
  (C4_amended (fun _ => false)
      [(.ok (some (.event (.Resize 1 1))), false), (.ok none, true)]
      ⟨[], [], true⟩ (.ok false) ⟨[.event (.Resize 1 1)], [], true⟩ []
      rfl (by decide)).2
    (by
      intro p hp k
      simp only [List.mem_cons, List.not_mem_nil, or_false] at hp
      rcases hp with rfl | rfl <;> simp)

/-- Claim C5 (confirmed): no event is ever lost. Across a single `poll` call
the total number of buffered events (event queue plus skip buffer) grows by
exactly the number of events actually retrieved from the source (the
`Ok(Some(_))` responses in the consumed trace prefix); and a `try_read` call
removes exactly one event from the queue when it returns `Some` and leaves the
queue exactly as it was when it returns `None`. -/
theorem C5_no_event_lost (f : InternalEvent → Bool)
    (trace : List (SourceResult × Bool)) (s : ReaderState)
    (q : List InternalEvent) :
    (∀ r s' rest, poll f trace s = some (r, s', rest) →
      ∃ consumed, trace = consumed ++ rest ∧
        s'.events.length + s'.skipped.length
          = s.events.length + s.skipped.length + countRetrieved consumed) ∧
    (∀ e q', tryRead f q = (some e, q') → q'.length + 1 = q.length) ∧
    (∀ q', tryRead f q = (none, q') → q' = q) := by
  refine ⟨?_, ?_, ?_⟩
  · intro r s' rest h
    rw [poll] at h
    by_cases hany : s.events.any f = true
    · rw [if_pos hany, Option.some.injEq, Prod.mk.injEq, Prod.mk.injEq] at h
      obtain ⟨-, hs', hrest⟩ := h
      exact ⟨[], by simp [hrest], by rw [← hs']; simp [countRetrieved]⟩
    · rw [if_neg hany] at h
      by_cases hsrc : s.hasSource = true
      · rw [if_pos hsrc] at h
        exact pollLoop_conservation f trace s r s' rest h
      · rw [if_neg hsrc, Option.some.injEq, Prod.mk.injEq, Prod.mk.injEq] at h
        obtain ⟨-, hs', hrest⟩ := h
        exact ⟨[], by simp [hrest], by rw [← hs']; simp [countRetrieved]⟩
  · intro e q' h
    rw [tryRead_eq] at h
    cases hd : q.dropWhile (fun e => !(f e)) with
    | nil => rw [hd] at h; simp at h
    | cons m after =>
      rw [hd] at h
      have hq' : after ++ q.takeWhile (fun e => !(f e)) = q' :=
        congrArg Prod.snd h
      have hq : q.takeWhile (fun e => !(f e)) ++ (m :: after) = q := by
        rw [← hd]; exact List.takeWhile_append_dropWhile (fun e => !(f e)) q
      have h1 := congrArg List.length hq'
      have h2 := congrArg List.length hq
      simp [List.length_append] at h1 h2
      omega
  · intro q' h
    rw [tryRead_eq] at h
    cases hd : q.dropWhile (fun e => !(f e)) with
    | nil =>
      rw [hd] at h
      exact (congrArg Prod.snd h).symm
    | cons m after => rw [hd] at h; simp at h

/-- Claim C5 (witness): a `poll` that retrieves one matching event grows the
total by one; a `try_read` that returns an event shrinks the queue by one. -/
theorem C5_no_event_lost_witness :
    (∃ consumed,
      ([((SourceResult.ok (some (InternalEvent.cursorPosition 1 2))), true)]
          : List (SourceResult × Bool)) = consumed ++ [] ∧
      (⟨[InternalEvent.cursorPosition 1 2], [], true⟩ : ReaderState).events.length
          + (⟨[InternalEvent.cursorPosition 1 2], [], true⟩ : ReaderState).skipped.length
        = (⟨[], [], true⟩ : ReaderState).events.length
            + (⟨[], [], true⟩ : ReaderState).skipped.length
            + countRetrieved consumed) ∧
    ([] : List InternalEvent).length + 1
      = [InternalEvent.cursorPosition 1 2].length :=
  ⟨(C5_no_event_lost CursorPositionFilter
      [(.ok (some (.cursorPosition 1 2)), true)] ⟨[], [], true⟩
      [.cursorPosition 1 2]).1 (.ok true)
      ⟨[.cursorPosition 1 2], [], true⟩ [] (by decide),
   (C5_no_event_lost CursorPositionFilter
      [(.ok (some (.cursorPosition 1 2)), true)] ⟨[], [], true⟩
      [.cursorPosition 1 2]).2.1 (.cursorPosition 1 2) [] (by decide)⟩

/-- Claim C6 (confirmed): whenever the event source fails with an
interrupted-operation error, the `poll` source loop returns `Ok(false)`
immediately — the reader state is untouched and the rest of the trace is not
consulted — and no `poll` call ever returns an `Err` of interrupted kind to
its caller. -/
theorem C6_interrupted_ok_false (f : InternalEvent → Bool)
    (trace : List (SourceResult × Bool)) (s : ReaderState) (b : Bool)
    (rest : List (SourceResult × Bool)) :
    (pollLoop f ((SourceResult.err .interrupted, b) :: rest) s
      = some (.ok false, s, rest)) ∧
    (s.events.any f = false → s.hasSource = true →
      poll f ((SourceResult.err .interrupted, b) :: rest) s
        = some (.ok false, s, rest)) ∧
    (∀ r s' rest2, poll f trace s = some (r, s', rest2) →
      r ≠ PollResult.err .interrupted) := by
  refine ⟨rfl, ?_, ?_⟩
  · intro hany hsrc
    rw [poll, if_neg (by simp [hany]), if_pos hsrc]
    rfl
  · intro r s' rest2 h
    rw [poll] at h
    by_cases hany : s.events.any f = true
    · rw [if_pos hany, Option.some.injEq, Prod.mk.injEq, Prod.mk.injEq] at h
      obtain ⟨hr, -⟩ := h
      rw [← hr]; simp
    · rw [if_neg hany] at h
      by_cases hsrc : s.hasSource = true
      · rw [if_pos hsrc] at h
        obtain ⟨extra, hcase⟩ := pollLoop_shape f trace s r s' rest2 h
        rcases hcase with ⟨e, hr, -, -⟩ | ⟨hr, -⟩ | ⟨hr, -, -⟩
        · rw [hr]; simp
        · rw [hr]; simp
        · rcases hr with hr | hr <;> rw [hr] <;> simp
      · rw [if_neg hsrc, Option.some.injEq, Prod.mk.injEq, Prod.mk.injEq] at h
        obtain ⟨hr, -⟩ := h
        rw [← hr]; simp

/-- Claim C6 (witness): an interrupted source makes `poll` return `Ok(false)`
with the state untouched. -/
theorem C6_interrupted_ok_false_witness :
    poll CursorPositionFilter [(SourceResult.err .interrupted, false)]
        ⟨[], [], true⟩
      = some (.ok false, ⟨[], [], true⟩, []) :=
  (C6_interrupted_ok_false CursorPositionFilter
      [(SourceResult.err .interrupted, false)] ⟨[], [], true⟩ false []).2.1
    rfl rfl

/-- Claim C7 (counterexample): with a source that is interrupted on every call,
`read` neither returns an event nor an error — each `poll(None, filter)`
collapses the interruption to `Ok(false)`, so `read` keeps looping (here: three
interruptions consumed, fuel remaining, still no return). The caller never
receives an error from `poll` under repeated interruption, contrary to the
claim. -/
theorem C7_counterexample :
    read (fun _ => true) 5 (List.replicate 3 (SourceResult.err .interrupted))
      ⟨[], [], true⟩ = none := by
  decide

/-- Claim C7 (amended): `read` has no timeout of its own and propagates any
non-interrupted error from `poll` to the caller; but repeated interruption of
the source does not produce an error: `poll` returns `Ok(false)` for each
interruption, so `read` keeps looping without returning (for every fuel and
every number of consecutive interruptions it returns neither event nor
error). -/
theorem C7_amended (f : InternalEvent → Bool) (fuel n : Nat)
    (rest : List SourceResult) :
    read f fuel (List.replicate n (SourceResult.err .interrupted)) ⟨[], [], true⟩
      = none ∧
    read f (fuel + 1) (SourceResult.err .other :: rest) ⟨[], [], true⟩
      = some (.ioError .other, ⟨[], [], true⟩, rest) := by
  constructor
  · induction fuel generalizing n with
    | zero => rfl
    | succ fuel ih =>
      cases n with
      | zero => rfl
      | succ m =>
        rw [List.replicate_succ]
        show read f fuel (List.replicate m (SourceResult.err .interrupted))
          ⟨[], [], true⟩ = none
        exact ih m
  · rfl

/-- Every timeout passed to `internal::poll` by the cursor-query loop is the
fixed 2000 ms constant (a fresh full window on each iteration, never a
shrinking one). -/
theorem read_position_raw_loop_timeouts :
    ∀ (steps : List LoopStep), ∀ t ∈ (read_position_raw_loop steps).2,
      t = cursorPollTimeoutMs := by
  intro steps
  induction steps with
  | nil => intro t ht; simp [read_position_raw_loop] at ht
  | cons step rest ih =>
    intro t ht
    cases hp : step.pollRes with
    | err =>
      simp only [read_position_raw_loop, hp] at ht
      rcases List.mem_cons.mp ht with h | h
      · exact h
      · exact ih t h
    | ok b =>
      cases b with
      | false =>
        simp only [read_position_raw_loop, hp] at ht
        simpa using ht
      | true =>
        cases hr : isCursorReply step.readRes with
        | some p =>
          obtain ⟨x, y⟩ := p
          simp only [read_position_raw_loop, hp, hr] at ht
          simpa using ht
        | none =>
          simp only [read_position_raw_loop, hp, hr] at ht
          rcases List.mem_cons.mp ht with h | h
          · exact h
          · exact ih t h

/-- If the cursor-query loop returns the timeout error, the trace decomposes as
a prefix of continue-steps (poll error, or poll true with no decodable cursor
reply) followed by a step whose `poll` returned `Ok(false)`. -/
theorem read_position_raw_loop_timeout_exit :
    ∀ (steps : List LoopStep),
      (read_position_raw_loop steps).1 = some .timeoutErr →
      ∃ pre s2 post, steps = pre ++ s2 :: post ∧ s2.pollRes = .ok false ∧
        ∀ s3 ∈ pre, s3.pollRes = .err ∨
          (s3.pollRes = .ok true ∧ isCursorReply s3.readRes = none) := by
  intro steps
  induction steps with
  | nil => intro h; simp [read_position_raw_loop] at h
  | cons step rest ih =>
    intro h
    cases hp : step.pollRes with
    | err =>
      simp only [read_position_raw_loop, hp] at h
      obtain ⟨pre, s2, post, hsplit, hs2, hpre⟩ := ih h
      refine ⟨step :: pre, s2, post, by rw [hsplit]; rfl, hs2, ?_⟩
      intro s3 hs3
      rcases List.mem_cons.mp hs3 with rfl | hs3
      · exact Or.inl hp
      · exact hpre s3 hs3
    | ok b =>
      cases b with
      | false => exact ⟨[], step, rest, rfl, hp, by simp⟩
      | true =>
        cases hr : isCursorReply step.readRes with
        | some p =>
          obtain ⟨x, y⟩ := p
          simp only [read_position_raw_loop, hp, hr] at h
          simp at h
        | none =>
          simp only [read_position_raw_loop, hp, hr] at h
          obtain ⟨pre, s2, post, hsplit, hs2, hpre⟩ := ih h
          refine ⟨step :: pre, s2, post, by rw [hsplit]; rfl, hs2, ?_⟩
          intro s3 hs3
          rcases List.mem_cons.mp hs3 with rfl | hs3
          · exact Or.inr ⟨hp, hr⟩
          · exact hpre s3 hs3

/-- Claim C9 (confirmed): in the cursor-position wait loop, a `poll` outcome of
`Ok(false)` fails immediately with the distinct timeout error; a `poll` error
is ignored and the loop retries, each retry passing the same fixed 2000 ms
(2-second) window to `poll`; and the only unsuccessful termination of the loop
is through the explicit `Ok(false)` branch: a timeout-error result decomposes
the trace into continue-steps followed by an `Ok(false)` poll. -/
theorem C9_wait_loop (steps rest : List LoopStep) (step : LoopStep) :
    cursorPollTimeoutMs = 2000 ∧
    (step.pollRes = .ok false →
      read_position_raw_loop (step :: rest)
        = (some .timeoutErr, [cursorPollTimeoutMs])) ∧
    (step.pollRes = .err →
      (read_position_raw_loop (step :: rest)).1
        = (read_position_raw_loop rest).1) ∧
    (∀ t ∈ (read_position_raw_loop steps).2, t = cursorPollTimeoutMs) ∧
    ((read_position_raw_loop steps).1 = some .timeoutErr →
      ∃ pre s2 post, steps = pre ++ s2 :: post ∧ s2.pollRes = .ok false ∧
        ∀ s3 ∈ pre, s3.pollRes = .err ∨
          (s3.pollRes = .ok true ∧ isCursorReply s3.readRes = none)) := by
  refine ⟨rfl, ?_, ?_, read_position_raw_loop_timeouts steps,
    read_position_raw_loop_timeout_exit steps⟩
  · intro hp
    simp [read_position_raw_loop, hp]
  · intro hp
    simp [read_position_raw_loop, hp]

/-- Claim C9 (witness): a trace with one ignored poll error followed by an
`Ok(false)` poll ends in the timeout error, after two full 2000 ms windows. -/
theorem C9_wait_loop_witness :
    read_position_raw_loop
        [⟨PollOutcome.ok false, ReadOutcome.err⟩]
      = (some .timeoutErr, [cursorPollTimeoutMs]) ∧
    ∃ pre s2 post,
      ([⟨PollOutcome.err, ReadOutcome.err⟩,
        ⟨PollOutcome.ok false, ReadOutcome.err⟩] : List LoopStep)
          = pre ++ s2 :: post ∧
        s2.pollRes = .ok false ∧
        ∀ s3 ∈ pre, s3.pollRes = .err ∨
          (s3.pollRes = .ok true ∧ isCursorReply s3.readRes = none) :=
  ⟨(C9_wait_loop [] [] ⟨PollOutcome.ok false, ReadOutcome.err⟩).2.1 rfl,
   (C9_wait_loop
      [⟨PollOutcome.err, ReadOutcome.err⟩,
       ⟨PollOutcome.ok false, ReadOutcome.err⟩] []
      ⟨PollOutcome.ok false, ReadOutcome.err⟩).2.2.2.2 (by decide)⟩

/-- Claim C10 (confirmed): after `poll` returns `Ok(true)`, if the subsequent
filtered `read` returns an error or an event that is not a cursor-position
reply, the protocol does not fail: the iteration falls through and the loop
restarts with a fresh fixed 2000 ms poll window, exactly as if continuing on
the remaining trace. -/
theorem C10_silent_restart (step : LoopStep) (rest : List LoopStep)
    (hp : step.pollRes = .ok true)
    (hr : isCursorReply step.readRes = none) :
    read_position_raw_loop (step :: rest)
      = ((read_position_raw_loop rest).1,
         cursorPollTimeoutMs :: (read_position_raw_loop rest).2) := by
  simp [read_position_raw_loop, hp, hr]

/-- Claim C10 (witness): a poll success followed by a failed read silently
continues the loop. -/
theorem C10_silent_restart_witness :
    read_position_raw_loop [⟨PollOutcome.ok true, ReadOutcome.err⟩]
      = ((read_position_raw_loop []).1,
         cursorPollTimeoutMs :: (read_position_raw_loop []).2) :=
  C10_silent_restart ⟨PollOutcome.ok true, ReadOutcome.err⟩ [] rfl rfl

/-- Claim C8 (counterexample): entering `position()` with raw mode disabled,
the query itself succeeds with coordinates `(1, 2)` (the wait loop decodes a
cursor reply), but `disable_raw_mode()` fails; because `read_position` applies
the `?` operator to `disable_raw_mode()`, the restoration failure is returned
and the query's own, more specific, successful result is suppressed. -/
theorem C8_counterexample :
    position false true false true true
        [⟨PollOutcome.ok true, ReadOutcome.ok (.cursorPosition 1 2)⟩]
      = (some (.error .disableFail), [.enable, .disable]) ∧
    read_position_raw true true
        [⟨PollOutcome.ok true, ReadOutcome.ok (.cursorPosition 1 2)⟩]
      = some (.ok 1 2) := by
  decide

/-- Claim C8 (amended): when `position()` is entered with raw mode disabled and
enabling succeeds, raw mode is enabled for the query and disabling is attempted
afterward on both the success and the failure path of the query (the
`disable` action is performed whenever the query returns); but a restoration
failure is not transparent: if `disable_raw_mode()` fails, its error replaces
the query's own result (success value or earlier failure), which is reported
only when restoration succeeds. -/
theorem C8_amended (disableOk writeOk flushOk : Bool) (steps : List LoopStep)
    (q : PosOutcome)
    (hq : read_position_raw writeOk flushOk steps = some q) :
    position false true disableOk writeOk flushOk steps
      = (some (if disableOk then q else PosOutcome.error .disableFail),
         [ModeAction.enable, ModeAction.disable]) := by
  rw [position, if_neg (by simp), read_position, if_pos rfl, hq]
  cases disableOk with
  | true => simp
  | false => simp

/-- Claim C8 (amended, witness): with restoration succeeding, the query's
successful result is reported and both mode actions were performed; the
hypothesis (the query returned) is discharged on a concrete successful
query. -/
theorem C8_amended_witness :
    position false true true true true
        [⟨PollOutcome.ok true, ReadOutcome.ok (.cursorPosition 3 4)⟩]
      = (some (if true then PosOutcome.ok 3 4 else PosOutcome.error .disableFail),
         [ModeAction.enable, ModeAction.disable]) :=
  C8_amended true true true
    [⟨PollOutcome.ok true, ReadOutcome.ok (.cursorPosition 3 4)⟩]
    (PosOutcome.ok 3 4) rfl

end Crossterm
